import Mathlib

/-!
Verification of the CSV transformation pipeline in
`src/news_sentiment_trader/main.py`.

The data model follows the spec: a `Row` is an ordered list of string
cells, a `Table` is a list of rows whose first row is the header.
Python lists of strings are modelled as `List String`; the Python `int`
arguments (`n`, `num_scores`) are modelled as `Int`.
-/

/-- A CSV row: an ordered sequence of string cells. -/
abbrev Row := List String

/-- A table: an ordered sequence of rows; the first row, when present, is the header. -/
abbrev Table := List Row

/-- Python slice `l[:n]` for an arbitrary `int` bound `n`: for `n ≥ 0` the first
`min n (length l)` elements, for `n < 0` all elements but the last `-n` (clamped at zero). -/
def pySliceTo (l : List α) (n : Int) : List α :=
  if 0 ≤ n then l.take n.toNat else l.take ((l.length : Int) + n).toNat

/-- `limit_rows` (main.py lines 90-95): keep the header row and the slice `data[:n]`
of the data rows; an empty table is returned unchanged. -/
def limit_rows (rows : Table) (n : Int) : Table :=
  match rows with
  | [] => rows
  | header :: data => header :: pySliceTo data n

/-- The header loop of `add_sentiment_columns` (main.py lines 105-107):
`for i in range(1, num_scores + 1)` append `f"sentiment_{i}"` then
`f"sentiment_{i}_reason"`. `i` is the next index, the second argument counts the
remaining iterations. -/
def headerLoop (acc : List String) (i : Nat) : Nat → List String
  | 0 => acc
  | k + 1 => headerLoop ((acc ++ [s!"sentiment_{i}"]) ++ [s!"sentiment_{i}_reason"]) (i + 1) k

/-- The per-row loop of `add_sentiment_columns` (main.py lines 113-115):
`for _ in range(num_scores)` append two empty-string placeholder cells. -/
def rowLoop (acc : List String) : Nat → List String
  | 0 => acc
  | k + 1 => rowLoop ((acc ++ [""]) ++ [""]) k

/-- `add_sentiment_columns` (main.py lines 98-118): widen the header with the
sentiment column names and every data row with empty placeholder cells; an empty
table is returned unchanged. `range(1, num_scores + 1)` and `range(num_scores)`
run `max 0 num_scores = num_scores.toNat` iterations. -/
def add_sentiment_columns (rows : Table) (num_scores : Int) : Table :=
  match rows with
  | [] => rows
  | header :: data =>
      headerLoop header 1 num_scores.toNat ::
        data.map (fun row => rowLoop row num_scores.toNat)

/-- The appended header names as the spec describes them: for indices `i, i+1, ...`
(`k` names pairs in total) the pattern `sentiment_i`, `sentiment_i_reason`, in order. -/
def sentimentNamesFrom (i : Nat) : Nat → List String
  | 0 => []
  | k + 1 => s!"sentiment_{i}" :: s!"sentiment_{i}_reason" :: sentimentNamesFrom (i + 1) k

/-- The full appended header pattern `sentiment_1, sentiment_1_reason, ...,
sentiment_scores, sentiment_scores_reason`. -/
def sentimentHeaderNames (scores : Nat) : List String :=
  sentimentNamesFrom 1 scores

lemma headerLoop_eq (k : Nat) : ∀ (i : Nat) (acc : List String),
    headerLoop acc i k = acc ++ sentimentNamesFrom i k := by
  induction k with
  | zero => intro i acc; simp [headerLoop, sentimentNamesFrom]
  | succ k ih =>
      intro i acc
      rw [headerLoop, ih, sentimentNamesFrom]
      simp

lemma rowLoop_eq (k : Nat) : ∀ acc : List String,
    rowLoop acc k = acc ++ List.replicate (2 * k) "" := by
  induction k with
  | zero => intro acc; simp [rowLoop]
  | succ k ih =>
      intro acc
      rw [rowLoop, ih]
      have h2 : 2 * (k + 1) = 2 + 2 * k := by omega
      rw [h2, List.replicate_add]
      simp [List.replicate]

lemma sentimentNamesFrom_length (k : Nat) : ∀ i : Nat,
    (sentimentNamesFrom i k).length = 2 * k := by
  induction k with
  | zero => intro i; simp [sentimentNamesFrom]
  | succ k ih =>
      intro i
      rw [sentimentNamesFrom]
      simp [ih]
      omega

lemma add_sentiment_columns_cons (header : Row) (data : List Row) (scores : Int) :
    add_sentiment_columns (header :: data) scores
      = (header ++ sentimentHeaderNames scores.toNat)
          :: data.map (fun row => row ++ List.replicate (2 * scores.toNat) "") := by
  rw [add_sentiment_columns, headerLoop_eq, sentimentHeaderNames]
  simp only [rowLoop_eq]

/-- C1: for every table and every `scores` in `[1,5]`, `add_sentiment_columns`
appends to the header exactly the names `sentiment_1, sentiment_1_reason, ...,
sentiment_scores, sentiment_scores_reason` in order, appends `2 * scores` empty
cells to every data row, preserves all original columns, values and order, and
grows header and row lengths by exactly `2 * scores`. -/
theorem add_sentiment_columns_spec (header : Row) (data : List Row) (scores : Int)
    (h1 : 1 ≤ scores) (h5 : scores ≤ 5) :
    add_sentiment_columns (header :: data) scores
        = (header ++ sentimentHeaderNames scores.toNat)
            :: data.map (fun row => row ++ List.replicate (2 * scores.toNat) "")
      ∧ (header ++ sentimentHeaderNames scores.toNat).length
          = header.length + 2 * scores.toNat
      ∧ ∀ row ∈ data,
          (row ++ List.replicate (2 * scores.toNat) "").length
            = row.length + 2 * scores.toNat := by
  refine ⟨add_sentiment_columns_cons header data scores, ?_, ?_⟩
  · simp [sentimentHeaderNames, sentimentNamesFrom_length]
  · intro row _
    simp

/-- Witness for C1 at the spec's scenario: header `["Date", "Headline"]`, one data
row, `scores = 2`. -/
theorem add_sentiment_columns_spec_witness :
    (1 : Int) ≤ 2 ∧ (2 : Int) ≤ 5 ∧
      add_sentiment_columns [["Date", "Headline"], ["2024-01-01", "Stocks rise"]] 2
        = [["Date", "Headline", "sentiment_1", "sentiment_1_reason",
            "sentiment_2", "sentiment_2_reason"],
           ["2024-01-01", "Stocks rise", "", "", "", ""]] := by
  refine ⟨by decide, by decide, ?_⟩
  rw [(add_sentiment_columns_spec ["Date", "Headline"] [["2024-01-01", "Stocks rise"]] 2
        (by decide) (by decide)).1]
  rfl

/-- C2: for every table and every integer `N ≥ 0`, `limit_rows` keeps the header
unchanged and returns exactly `min N (number of data rows)` data rows, equal to the
first data rows of the input, in order. -/
theorem limit_rows_spec (header : Row) (data : List Row) (n : Int) (hn : 0 ≤ n) :
    limit_rows (header :: data) n = header :: data.take n.toNat
      ∧ (data.take n.toNat).length = min n.toNat data.length
      ∧ ∀ i : Nat, i < (data.take n.toNat).length →
          (data.take n.toNat)[i]? = data[i]? := by
  refine ⟨by rw [limit_rows, pySliceTo, if_pos hn], by simp, ?_⟩
  intro i hi
  rw [List.length_take] at hi
  exact List.getElem?_take_of_lt (lt_min_iff.mp hi).1

/-- Witness for C2 at the spec's scenario: ten data rows, `N = 3`. -/
theorem limit_rows_spec_witness :
    (0 : Int) ≤ 3 ∧
      limit_rows [["h"], ["1"], ["2"], ["3"], ["4"], ["5"], ["6"], ["7"], ["8"], ["9"], ["10"]] 3
        = [["h"], ["1"], ["2"], ["3"]] := by
  refine ⟨by decide, ?_⟩
  rw [(limit_rows_spec ["h"] [["1"], ["2"], ["3"], ["4"], ["5"], ["6"], ["7"], ["8"], ["9"], ["10"]]
        3 (by decide)).1]
  rfl

/-- C6: `limit_rows` applied with `N = 0` to a non-empty table returns exactly the
header row with zero data rows. -/
theorem limit_rows_zero (header : Row) (data : List Row) :
    limit_rows (header :: data) 0 = [header] := by
  rw [limit_rows, pySliceTo, if_pos le_rfl]
  simp

/-- C7: both transformations return the empty table unchanged, for every integer
argument. -/
theorem empty_table_unchanged :
    (∀ scores : Int, add_sentiment_columns [] scores = [])
      ∧ ∀ n : Int, limit_rows [] n = [] :=
  ⟨fun _ => rfl, fun _ => rfl⟩

/-- C4: widening twice with the same `scores` is not idempotent: the header length
grows by `4 * scores` and the doubly-widened table differs from the singly-widened
one. -/
theorem widen_twice_not_idempotent (header : Row) (data : List Row) (scores : Int)
    (h1 : 1 ≤ scores) (h5 : scores ≤ 5) :
    (add_sentiment_columns (add_sentiment_columns (header :: data) scores) scores).headI.length
        = header.length + 4 * scores.toNat
      ∧ add_sentiment_columns (add_sentiment_columns (header :: data) scores) scores
          ≠ add_sentiment_columns (header :: data) scores := by
  have hpos : 1 ≤ scores.toNat := by omega
  rw [add_sentiment_columns_cons, add_sentiment_columns_cons]
  constructor
  · simp [List.headI, sentimentHeaderNames, sentimentNamesFrom_length]
    omega
  · intro hEq
    have hHead := congrArg List.headI hEq
    simp [List.headI] at hHead
    have hLen := congrArg List.length hHead
    simp [sentimentHeaderNames, sentimentNamesFrom_length] at hLen
    omega

/-- Witness for C4 at `scores = 1` on a one-column table. -/
theorem widen_twice_not_idempotent_witness :
    (1 : Int) ≤ 1 ∧ (1 : Int) ≤ 5 ∧
      (add_sentiment_columns (add_sentiment_columns [["a"], ["x"]] 1) 1).headI.length = 1 + 4 * 1 := by
  refine ⟨by decide, by decide, ?_⟩
  exact (widen_twice_not_idempotent ["a"] [["x"]] 1 (by decide) (by decide)).1

/-- C9: limiting then widening agrees with widening then limiting, for every table,
every `n ≥ 0` and every `scores` in `[1,5]`. -/
theorem limit_widen_comm (rows : Table) (n scores : Int) (hn : 0 ≤ n)
    (h1 : 1 ≤ scores) (h5 : scores ≤ 5) :
    add_sentiment_columns (limit_rows rows n) scores
      = limit_rows (add_sentiment_columns rows scores) n := by
  cases rows with
  | nil => rfl
  | cons header data =>
      rw [limit_rows, pySliceTo, if_pos hn, add_sentiment_columns_cons,
        add_sentiment_columns_cons, limit_rows, pySliceTo, if_pos hn]
      rw [List.map_take]

/-- Witness for C9 at a concrete table, `n = 1`, `scores = 1`. -/
theorem limit_widen_comm_witness :
    (0 : Int) ≤ 1 ∧ (1 : Int) ≤ 1 ∧ (1 : Int) ≤ 5 ∧
      add_sentiment_columns (limit_rows [["h"], ["x"], ["y"]] 1) 1
        = limit_rows (add_sentiment_columns [["h"], ["x"], ["y"]] 1) 1 :=
  ⟨by decide, by decide, by decide,
    limit_widen_comm [["h"], ["x"], ["y"]] 1 1 (by decide) (by decide) (by decide)⟩

/-- The `--rows` re-prompt loop of `prompt_if_needed` (main.py lines 48-57), with the
stream of user inputs made explicit: each entry is the parsed integer of one input
line (`none` when `int(...)` raises). The loop re-prompts until a positive integer is
entered; `none` means the input stream ran out while the loop was still running. -/
def promptLoopRows : List (Option Int) → Option Int
  | [] => none
  | some v :: rest => if v ≤ 0 then promptLoopRows rest else some v
  | none :: rest => promptLoopRows rest

/-- `prompt_if_needed` restricted to the `rows` argument (main.py lines 47-57): the
loop runs only when the `--rows` flag was absent (`args.rows is None`); a flag value
passes through untouched. -/
def prompt_if_needed_rows (rowsArg : Option Int) (inputs : List (Option Int)) : Option Int :=
  match rowsArg with
  | some v => some v
  | none => promptLoopRows inputs

lemma promptLoopRows_pos : ∀ (inputs : List (Option Int)) (v : Int),
    promptLoopRows inputs = some v → 0 < v := by
  intro inputs
  induction inputs with
  | nil => intro v hv; simp [promptLoopRows] at hv
  | cons i rest ih =>
      intro v hv
      match i with
      | none => exact ih v hv
      | some w =>
          rw [promptLoopRows] at hv
          by_cases hw : w ≤ 0
          · rw [if_pos hw] at hv
            exact ih v hv
          · rw [if_neg hw] at hv
            cases hv
            omega

/-- C8: for a negative `n`, `limit_rows` keeps the header and drops exactly the last
`-n` data rows (Python negative-slice semantics); and a value supplied via the
`--rows` flag reaches `limit_rows` unvalidated (the re-prompt validation runs only
when the flag is absent, and then only ever produces positive values). -/
theorem limit_rows_negative (header : Row) (data : List Row) (n : Int) (hn : n < 0)
    (inputs : List (Option Int)) :
    limit_rows (header :: data) n = header :: data.take (data.length - (-n).toNat)
      ∧ prompt_if_needed_rows (some n) inputs = some n
      ∧ ∀ v : Int, prompt_if_needed_rows none inputs = some v → 0 < v := by
  refine ⟨?_, rfl, fun v hv => promptLoopRows_pos inputs v hv⟩
  have harg : ((data.length : Int) + n).toNat = data.length - (-n).toNat := by omega
  rw [limit_rows, pySliceTo, if_neg (by omega), harg]

/-- Witness for C8: a three-data-row table with `n = -1` keeps the first two data
rows, and `--rows -1` passes through the prompt stage unchanged. -/
theorem limit_rows_negative_witness :
    (-1 : Int) < 0
      ∧ limit_rows [["h"], ["1"], ["2"], ["3"]] (-1) = [["h"], ["1"], ["2"]]
      ∧ prompt_if_needed_rows (some (-1)) [] = some (-1) := by
  have h := limit_rows_negative ["h"] [["1"], ["2"], ["3"]] (-1) (by decide) []
  exact ⟨by decide, by rw [h.1]; rfl, h.2.1⟩

/-- The observable outcome of one run of `main`: the process exit status and the
table written to the output file, when one is written. -/
structure RunOutcome where
  exitCode : Nat
  written : Option Table
  deriving Repr, DecidableEq

/-- `main` (main.py lines 147-170) with the network fetch abstracted into the
`fetched` argument: an empty fetched table prints a message and exits with status 1
before any file is written; otherwise the pipeline runs limit, widen, write and the
process finishes normally with status 0. -/
def runPipeline (fetched : Table) (rowsArg scoresArg : Int) : RunOutcome :=
  if fetched = [] then { exitCode := 1, written := none }
  else { exitCode := 0,
         written := some (add_sentiment_columns (limit_rows fetched rowsArg) scoresArg) }

/-- C5: an empty fetched table makes the orchestrator exit with status 1 and write
nothing; a non-empty fetched table runs the full pipeline, writes the transformed
table and exits with status 0. -/
theorem pipeline_exit_codes (fetched : Table) (rowsArg scoresArg : Int) :
    (fetched = [] → runPipeline fetched rowsArg scoresArg = ⟨1, none⟩)
      ∧ (fetched ≠ [] →
          (runPipeline fetched rowsArg scoresArg).exitCode = 0
            ∧ (runPipeline fetched rowsArg scoresArg).written
                = some (add_sentiment_columns (limit_rows fetched rowsArg) scoresArg)) := by
  constructor
  · intro h
    rw [runPipeline, if_pos h]
  · intro h
    rw [runPipeline, if_neg h]
    exact ⟨rfl, rfl⟩

/-- Witness for C5: the empty table exits 1 with no file, a one-row table exits 0. -/
theorem pipeline_exit_codes_witness :
    runPipeline [] 1 1 = ⟨1, none⟩ ∧ (runPipeline [["h"]] 1 1).exitCode = 0 :=
  ⟨(pipeline_exit_codes [] 1 1).1 rfl, ((pipeline_exit_codes [["h"]] 1 1).2 (by decide)).1⟩

/-- A heap of Python list objects: `cells a` is the list currently stored at address
`a`; addresses `≥ next` are unallocated. Python aliasing and in-place mutation are
modelled as reads and writes through this heap. -/
structure PyHeap where
  cells : Nat → List String
  next : Nat

/-- Allocate a fresh list object holding `v` (what Python `list.copy()` does),
returning the new heap and the fresh address. -/
def PyHeap.alloc (h : PyHeap) (v : List String) : PyHeap × Nat :=
  (⟨fun b => if b = h.next then v else h.cells b, h.next + 1⟩, h.next)

/-- Python `lst.append(x)` on the list object at address `a`. -/
def PyHeap.appendAt (h : PyHeap) (a : Nat) (x : String) : PyHeap :=
  ⟨fun b => if b = a then h.cells a ++ [x] else h.cells b, h.next⟩

/-- The header append loop of `add_sentiment_columns` acting on the heap object at
address `a` (main.py lines 105-107). -/
def headerLoopH (h : PyHeap) (a : Nat) (i : Nat) : Nat → PyHeap
  | 0 => h
  | k + 1 =>
      headerLoopH ((h.appendAt a (s!"sentiment_{i}")).appendAt a (s!"sentiment_{i}_reason"))
        a (i + 1) k

/-- The per-row append loop of `add_sentiment_columns` acting on the heap object at
address `a` (main.py lines 113-115). -/
def rowLoopH (h : PyHeap) (a : Nat) : Nat → PyHeap
  | 0 => h
  | k + 1 => rowLoopH ((h.appendAt a "").appendAt a "") a k

/-- `new_header = header.copy()` followed by the header append loop
(main.py lines 104-107), at heap level. -/
def widenHeaderH (h : PyHeap) (addr : Nat) (num_scores : Int) : PyHeap × Nat :=
  let p := h.alloc (h.cells addr)
  (headerLoopH p.1 p.2 1 num_scores.toNat, p.2)

/-- `new_row = row.copy()` followed by the placeholder append loop
(main.py lines 111-115), at heap level. -/
def widenRowH (h : PyHeap) (addr : Nat) (num_scores : Int) : PyHeap × Nat :=
  let p := h.alloc (h.cells addr)
  (rowLoopH p.1 p.2 num_scores.toNat, p.2)

/-- `add_sentiment_columns` (main.py lines 98-118) at heap level: the argument is
the list of addresses of the row objects; the result is the final heap and the
addresses of the freshly built rows. -/
def add_sentiment_columnsH (h : PyHeap) (rows : List Nat) (num_scores : Int) :
    PyHeap × List Nat :=
  match rows with
  | [] => (h, rows)
  | headerA :: dataA =>
      let p := widenHeaderH h headerA num_scores
      let q := dataA.foldl
        (fun (acc : PyHeap × List Nat) ra =>
          let r := widenRowH acc.1 ra num_scores
          (r.1, acc.2 ++ [r.2]))
        (p.1, [])
      (q.1, p.2 :: q.2)

/-- `limit_rows` (main.py lines 90-95) at heap level: slicing and list concatenation
build new spines of shared references and perform no writes, so the heap component
is returned untouched. -/
def limit_rowsH (h : PyHeap) (rows : List Nat) (n : Int) : PyHeap × List Nat :=
  match rows with
  | [] => (h, rows)
  | headerA :: dataA => (h, headerA :: pySliceTo dataA n)

/-- `h2` is `h` after zero or more allocations and writes to fresh objects: every
address already allocated in `h` holds the same list in both heaps. -/
def heapExtends (h2 h : PyHeap) : Prop :=
  h.next ≤ h2.next ∧ ∀ b, b < h.next → h2.cells b = h.cells b

lemma heapExtends_refl (h : PyHeap) : heapExtends h h :=
  ⟨le_rfl, fun _ _ => rfl⟩

lemma heapExtends_trans {h3 h2 h : PyHeap} (h32 : heapExtends h3 h2)
    (h21 : heapExtends h2 h) : heapExtends h3 h :=
  ⟨le_trans h21.1 h32.1, fun b hb => (h32.2 b (lt_of_lt_of_le hb h21.1)).trans (h21.2 b hb)⟩

lemma appendAt_cells_ne (h : PyHeap) (a : Nat) (x : String) {b : Nat} (hb : b ≠ a) :
    (h.appendAt a x).cells b = h.cells b := by
  simp [PyHeap.appendAt, hb]

lemma appendAt_next (h : PyHeap) (a : Nat) (x : String) :
    (h.appendAt a x).next = h.next := rfl

lemma headerLoopH_frame (k : Nat) : ∀ (h : PyHeap) (a i : Nat),
    (headerLoopH h a i k).next = h.next
      ∧ ∀ b, b ≠ a → (headerLoopH h a i k).cells b = h.cells b := by
  induction k with
  | zero => intro h a i; exact ⟨rfl, fun _ _ => rfl⟩
  | succ k ih =>
      intro h a i
      rw [headerLoopH]
      refine ⟨(ih _ a (i + 1)).1, fun b hb => ?_⟩
      rw [(ih _ a (i + 1)).2 b hb, appendAt_cells_ne _ _ _ hb, appendAt_cells_ne _ _ _ hb]

lemma rowLoopH_frame (k : Nat) : ∀ (h : PyHeap) (a : Nat),
    (rowLoopH h a k).next = h.next
      ∧ ∀ b, b ≠ a → (rowLoopH h a k).cells b = h.cells b := by
  induction k with
  | zero => intro h a; exact ⟨rfl, fun _ _ => rfl⟩
  | succ k ih =>
      intro h a
      rw [rowLoopH]
      refine ⟨(ih _ a).1, fun b hb => ?_⟩
      rw [(ih _ a).2 b hb, appendAt_cells_ne _ _ _ hb, appendAt_cells_ne _ _ _ hb]

lemma alloc_snd (h : PyHeap) (v : List String) : (h.alloc v).2 = h.next := rfl

lemma alloc_fst_next (h : PyHeap) (v : List String) : (h.alloc v).1.next = h.next + 1 := rfl

lemma alloc_fst_cells_lt (h : PyHeap) (v : List String) {b : Nat} (hb : b < h.next) :
    (h.alloc v).1.cells b = h.cells b := by
  simp [PyHeap.alloc, Nat.ne_of_lt hb]

lemma widenHeaderH_extends (h : PyHeap) (addr : Nat) (num_scores : Int) :
    heapExtends (widenHeaderH h addr num_scores).1 h
      ∧ (widenHeaderH h addr num_scores).1.next = h.next + 1
      ∧ (widenHeaderH h addr num_scores).2 = h.next := by
  have hf := headerLoopH_frame num_scores.toNat (h.alloc (h.cells addr)).1 h.next 1
  have e1 : (widenHeaderH h addr num_scores).1
      = headerLoopH (h.alloc (h.cells addr)).1 h.next 1 num_scores.toNat := rfl
  refine ⟨⟨?_, ?_⟩, ?_, rfl⟩
  · rw [e1, hf.1, alloc_fst_next]; exact Nat.le_succ _
  · intro b hb
    rw [e1, hf.2 b (Nat.ne_of_lt hb), alloc_fst_cells_lt h _ hb]
  · rw [e1, hf.1, alloc_fst_next]

lemma widenRowH_extends (h : PyHeap) (addr : Nat) (num_scores : Int) :
    heapExtends (widenRowH h addr num_scores).1 h
      ∧ (widenRowH h addr num_scores).1.next = h.next + 1
      ∧ (widenRowH h addr num_scores).2 = h.next := by
  have hf := rowLoopH_frame num_scores.toNat (h.alloc (h.cells addr)).1 h.next
  have e1 : (widenRowH h addr num_scores).1
      = rowLoopH (h.alloc (h.cells addr)).1 h.next num_scores.toNat := rfl
  refine ⟨⟨?_, ?_⟩, ?_, rfl⟩
  · rw [e1, hf.1, alloc_fst_next]; exact Nat.le_succ _
  · intro b hb
    rw [e1, hf.2 b (Nat.ne_of_lt hb), alloc_fst_cells_lt h _ hb]
  · rw [e1, hf.1, alloc_fst_next]

lemma foldWiden_extends (num_scores : Int) (dataA : List Nat) :
    ∀ (h0 : PyHeap) (acc : List Nat),
      heapExtends
        (dataA.foldl
          (fun (acc : PyHeap × List Nat) ra =>
            let r := widenRowH acc.1 ra num_scores
            (r.1, acc.2 ++ [r.2]))
          (h0, acc)).1 h0 := by
  induction dataA with
  | nil => intro h0 acc; exact heapExtends_refl h0
  | cons ra rest ih =>
      intro h0 acc
      rw [List.foldl_cons]
      exact heapExtends_trans (ih _ _) (widenRowH_extends h0 ra num_scores).1

lemma add_sentiment_columnsH_extends (h : PyHeap) (rows : List Nat) (num_scores : Int) :
    heapExtends (add_sentiment_columnsH h rows num_scores).1 h := by
  cases rows with
  | nil => exact heapExtends_refl h
  | cons headerA dataA =>
      rw [add_sentiment_columnsH]
      exact heapExtends_trans (foldWiden_extends num_scores dataA _ _)
        (widenHeaderH_extends h headerA num_scores).1

/-- C10: neither transformation mutates its input. Every row object of the input
table (any address allocated in the pre-heap) holds exactly the same cells after
`add_sentiment_columns` runs, and `limit_rows` does not touch the heap at all. -/
theorem no_mutation_frame (h : PyHeap) (rows : List Nat) (n num_scores : Int)
    (hvalid : ∀ a ∈ rows, a < h.next) :
    (∀ a ∈ rows, ((add_sentiment_columnsH h rows num_scores).1).cells a = h.cells a)
      ∧ (limit_rowsH h rows n).1 = h := by
  constructor
  · intro a ha
    exact (add_sentiment_columnsH_extends h rows num_scores).2 a (hvalid a ha)
  · cases rows with
    | nil => rfl
    | cons headerA dataA => rfl

/-- A concrete two-object heap for the C10 witness. -/
def exHeap : PyHeap :=
  ⟨fun a => if a = 0 then ["Date", "Headline"] else if a = 1 then ["d", "x"] else [], 2⟩

/-- Witness for C10: on a concrete heap holding a header and one data row, the input
row objects are unchanged by the widener, and the limiter leaves the heap intact. -/
theorem no_mutation_frame_witness :
    (∀ a ∈ [0, 1], a < exHeap.next)
      ∧ ((add_sentiment_columnsH exHeap [0, 1] 2).1).cells 1 = exHeap.cells 1
      ∧ (limit_rowsH exHeap [0, 1] 1).1 = exHeap := by
  have h := no_mutation_frame exHeap [0, 1] 1 2 (by decide)
  exact ⟨by decide, h.1 1 (by decide), h.2⟩

/-- Parser modes of the `csv.reader` state machine used by `fetch_finviz_csv`
(default dialect: delimiter `,`, quote `"` with doubled-quote escaping), following
the states of CPython's `_csv` module; `eatCRNL` consumes the remainder of a
`\r\n` line terminator after a record ended. -/
inductive CsvMode
  | startRecord
  | startField
  | inField
  | inQuoted
  | quoteInQuoted
  | eatCRNL
  deriving Repr, DecidableEq

/-- Parser state: current mode, the characters of the field being read, the fields
of the record being read, and the completed records in order. -/
structure CsvState where
  mode : CsvMode
  field : List Char
  record : List String
  records : List (List String)
  deriving Repr, DecidableEq

/-- End the current field: the collected characters become the next field of the
current record. -/
def CsvState.saveField (st : CsvState) : CsvState :=
  { st with field := [], record := st.record ++ [String.mk st.field] }

/-- End the current record: the collected fields become the next completed record. -/
def CsvState.endRecord (st : CsvState) : CsvState :=
  { st with record := [], records := st.records ++ [st.record] }

/-- One character read at the start-of-field position. -/
def stepStartField (st : CsvState) (c : Char) : CsvState :=
  if c = '\n' then { st.saveField.endRecord with mode := .startRecord }
  else if c = '\r' then { st.saveField.endRecord with mode := .eatCRNL }
  else if c = '"' then { st with mode := .inQuoted }
  else if c = ',' then { st.saveField with mode := .startField }
  else { st with field := st.field ++ [c], mode := .inField }

/-- One step of the reader state machine. A record is flushed as soon as it ends;
a lone `\n` on a blank line yields an empty record, as the reader does. -/
def csvStep (st : CsvState) (c : Char) : CsvState :=
  match st.mode with
  | .startRecord =>
      if c = '\n' then { st with records := st.records ++ [[]] }
      else if c = '\r' then { st with mode := .eatCRNL, records := st.records ++ [[]] }
      else stepStartField st c
  | .startField => stepStartField st c
  | .inField =>
      if c = '\n' then { st.saveField.endRecord with mode := .startRecord }
      else if c = '\r' then { st.saveField.endRecord with mode := .eatCRNL }
      else if c = ',' then { st.saveField with mode := .startField }
      else { st with field := st.field ++ [c] }
  | .inQuoted =>
      if c = '"' then { st with mode := .quoteInQuoted }
      else { st with field := st.field ++ [c] }
  | .quoteInQuoted =>
      if c = '"' then { st with field := st.field ++ [c], mode := .inQuoted }
      else if c = ',' then { st.saveField with mode := .startField }
      else if c = '\n' then { st.saveField.endRecord with mode := .startRecord }
      else if c = '\r' then { st.saveField.endRecord with mode := .eatCRNL }
      else { st with field := st.field ++ [c], mode := .inField }
  | .eatCRNL =>
      if c = '\n' then { st with mode := .startRecord }
      else if c = '\r' then st
      else stepStartField { st with mode := .startRecord } c

/-- End of input: flush whatever field or record is still pending, as the reader
does when its line iterator is exhausted mid-record. -/
def csvFinish (st : CsvState) : List (List String) :=
  match st.mode with
  | .startRecord => st.records
  | .eatCRNL => st.records
  | _ => st.saveField.endRecord.records

/-- The CSV parse used by `fetch_finviz_csv` (main.py lines 84-87):
`rows = [row for row in csv.reader(text_stream)]`, modelled by running the reader
state machine over the whole decoded text. -/
def parse_csv (text : String) : List (List String) :=
  csvFinish (text.toList.foldl csvStep ⟨.startRecord, [], [], []⟩)

/-- QUOTE_MINIMAL: a field must be quoted when it contains the delimiter, the quote
character or a line-terminator character. -/
def fieldNeedsQuote (s : String) : Bool :=
  s.toList.any (fun c => c = ',' || c = '"' || c = '\r' || c = '\n')

/-- Quote a field: wrap it in double quotes, doubling every embedded quote. -/
def quoteField (s : String) : String :=
  "\"" ++ String.mk (s.toList.foldr
    (fun c acc => if c = '"' then '"' :: '"' :: acc else c :: acc) []) ++ "\""

/-- Encode one field as `csv.writer` does under QUOTE_MINIMAL. -/
def encodeField (s : String) : String :=
  if fieldNeedsQuote s then quoteField s else s

/-- Fields of one record joined by the delimiter. -/
def joinFields : List String → String
  | [] => ""
  | [s] => s
  | s :: rest => s ++ "," ++ joinFields rest

/-- One `writer.writerow(row)` call: the encoded fields joined by commas plus the
default `\r\n` terminator; a row holding a single empty field is quoted so that it
stays distinguishable from a blank line. -/
def writeRecord (row : Row) : String :=
  (match row with
   | [s] => if s = "" then quoteField s else encodeField s
   | _ => joinFields (row.map encodeField)) ++ "\r\n"

/-- The text written by `write_csv` (main.py lines 125-130): each row of the table
written in order by `writer.writerow`. Directory creation and the file handle are
outside the model; this is the file's content. -/
def write_csv : Table → String
  | [] => ""
  | row :: rest => writeRecord row ++ write_csv rest

/-- A cell value with no embedded delimiter, quote character or line break. -/
def cleanCell (s : String) : Prop :=
  ∀ c ∈ s.toList, c ≠ ',' ∧ c ≠ '"' ∧ c ≠ '\r' ∧ c ≠ '\n'

instance : DecidablePred cleanCell := fun s =>
  List.decidableBAll _ s.toList

lemma toList_append (a b : String) : (a ++ b).toList = a.toList ++ b.toList := rfl

lemma mk_toList (s : String) : String.mk s.toList = s := rfl

lemma joinFields_single (s : String) : joinFields [s] = s := rfl

lemma joinFields_pair (s t : String) (l : List String) :
    joinFields (s :: t :: l) = s ++ "," ++ joinFields (t :: l) := rfl

lemma encodeField_clean (s : String) (hs : cleanCell s) : encodeField s = s := by
  have hq : fieldNeedsQuote s = false := by
    rw [fieldNeedsQuote, List.any_eq_false]
    intro c hc
    obtain ⟨h1, h2, h3, h4⟩ := hs c hc
    simp [h1, h2, h3, h4]
  simp [encodeField, hq]

lemma map_encodeField_clean (l : List String) (h : ∀ s ∈ l, cleanCell s) :
    l.map encodeField = l := by
  induction l with
  | nil => rfl
  | cons s l ih =>
      rw [List.map_cons, encodeField_clean s (h s (by simp)),
        ih (fun t ht => h t (by simp [ht]))]

lemma writeRecord_clean (row : Row) (hclean : ∀ s ∈ row, cleanCell s) (hrow : row ≠ [""]) :
    writeRecord row = joinFields row ++ "\r\n" := by
  match row with
  | [] => rfl
  | [s] =>
      have hs : s ≠ "" := fun h => hrow (by rw [h])
      show (if s = "" then quoteField s else encodeField s) ++ "\r\n" = joinFields [s] ++ "\r\n"
      rw [if_neg hs, encodeField_clean s (hclean s (by simp)), joinFields_single]
  | s :: t :: l =>
      show joinFields ((s :: t :: l).map encodeField) ++ "\r\n"
          = joinFields (s :: t :: l) ++ "\r\n"
      rw [map_encodeField_clean _ hclean]

lemma csvStep_inField_clean (f : List Char) (rec : List String) (recs : List (List String))
    (c : Char) (hc : c ≠ ',' ∧ c ≠ '"' ∧ c ≠ '\r' ∧ c ≠ '\n') :
    csvStep ⟨.inField, f, rec, recs⟩ c = ⟨.inField, f ++ [c], rec, recs⟩ := by
  simp [csvStep, hc.1, hc.2.2.1, hc.2.2.2]

lemma stepStartField_clean (st : CsvState) (c : Char)
    (hc : c ≠ ',' ∧ c ≠ '"' ∧ c ≠ '\r' ∧ c ≠ '\n') :
    stepStartField st c = { st with field := st.field ++ [c], mode := .inField } := by
  simp [stepStartField, hc.1, hc.2.1, hc.2.2.1, hc.2.2.2]

lemma stepStartField_mode (m₁ m₂ : CsvMode) (f : List Char) (rec : List String)
    (recs : List (List String)) (c : Char) :
    stepStartField ⟨m₁, f, rec, recs⟩ c = stepStartField ⟨m₂, f, rec, recs⟩ c := by
  unfold stepStartField CsvState.saveField CsvState.endRecord
  split_ifs <;> rfl

lemma foldl_inField (cs : List Char) : ∀ (f : List Char) (rec : List String)
    (recs : List (List String)),
    (∀ c ∈ cs, c ≠ ',' ∧ c ≠ '"' ∧ c ≠ '\r' ∧ c ≠ '\n') →
    cs.foldl csvStep ⟨.inField, f, rec, recs⟩ = ⟨.inField, f ++ cs, rec, recs⟩ := by
  induction cs with
  | nil => intro f rec recs _; simp
  | cons c cs ih =>
      intro f rec recs h
      rw [List.foldl_cons, csvStep_inField_clean f rec recs c (h c (by simp)),
        ih (f ++ [c]) rec recs (fun d hd => h d (by simp [hd]))]
      simp

lemma foldl_field_comma (cs : List Char) (h : ∀ c ∈ cs, c ≠ ',' ∧ c ≠ '"' ∧ c ≠ '\r' ∧ c ≠ '\n')
    (rec : List String) (recs : List (List String)) :
    (cs ++ [',']).foldl csvStep ⟨.startField, [], rec, recs⟩
      = ⟨.startField, [], rec ++ [String.mk cs], recs⟩ := by
  cases cs with
  | nil => rfl
  | cons c cs' =>
      rw [List.cons_append, List.foldl_cons]
      have h1 : csvStep ⟨CsvMode.startField, [], rec, recs⟩ c
          = ⟨CsvMode.inField, [c], rec, recs⟩ :=
        stepStartField_clean ⟨CsvMode.startField, [], rec, recs⟩ c (h c (by simp))
      rw [h1, List.foldl_append, foldl_inField cs' [c] rec recs
        (fun d hd => h d (by simp [hd]))]
      rfl

lemma foldl_field_crlf (cs : List Char) (h : ∀ c ∈ cs, c ≠ ',' ∧ c ≠ '"' ∧ c ≠ '\r' ∧ c ≠ '\n')
    (rec : List String) (recs : List (List String)) :
    (cs ++ ['\r', '\n']).foldl csvStep ⟨.startField, [], rec, recs⟩
      = ⟨.startRecord, [], [], recs ++ [rec ++ [String.mk cs]]⟩ := by
  cases cs with
  | nil => rfl
  | cons c cs' =>
      rw [List.cons_append, List.foldl_cons]
      have h1 : csvStep ⟨CsvMode.startField, [], rec, recs⟩ c
          = ⟨CsvMode.inField, [c], rec, recs⟩ :=
        stepStartField_clean ⟨CsvMode.startField, [], rec, recs⟩ c (h c (by simp))
      rw [h1, List.foldl_append, foldl_inField cs' [c] rec recs
        (fun d hd => h d (by simp [hd]))]
      rfl

lemma foldl_record_fields (l : List String) : ∀ (_ : l ≠ [])
    (_ : ∀ s ∈ l, cleanCell s) (rec : List String) (recs : List (List String)),
    ((joinFields l).toList ++ ['\r', '\n']).foldl csvStep ⟨.startField, [], rec, recs⟩
      = ⟨.startRecord, [], [], recs ++ [rec ++ l]⟩ := by
  induction l with
  | nil => intro hne; exact absurd rfl hne
  | cons s l ih =>
      intro _ hclean rec recs
      cases l with
      | nil =>
          rw [joinFields_single]
          have hres := foldl_field_crlf s.toList (hclean s (by simp)) rec recs
          rw [mk_toList] at hres
          exact hres
      | cons t l' =>
          rw [joinFields_pair]
          have hsplit : ((s ++ "," ++ joinFields (t :: l')).toList ++ ['\r', '\n'])
              = (s.toList ++ [',']) ++ ((joinFields (t :: l')).toList ++ ['\r', '\n']) := by
            rw [toList_append, toList_append]
            simp
          rw [hsplit, List.foldl_append]
          have hcomma := foldl_field_comma s.toList (hclean s (by simp)) rec recs
          rw [mk_toList] at hcomma
          rw [hcomma, ih (by simp) (fun u hu => hclean u (by simp [hu])) (rec ++ [s]) recs]
          simp

lemma csvStep_startRecord_bridge (recs : List (List String)) (c : Char)
    (h1 : c ≠ '\n') (h2 : c ≠ '\r') :
    csvStep ⟨.startRecord, [], [], recs⟩ c = csvStep ⟨.startField, [], [], recs⟩ c := by
  show (if c = '\n' then _ else if c = '\r' then _
          else stepStartField ⟨CsvMode.startRecord, [], [], recs⟩ c)
      = stepStartField ⟨CsvMode.startField, [], [], recs⟩ c
  rw [if_neg h1, if_neg h2]
  exact stepStartField_mode CsvMode.startRecord CsvMode.startField [] [] recs c

lemma foldl_startRecord_eq_startField (c : Char) (l : List Char)
    (recs : List (List String)) (h1 : c ≠ '\n') (h2 : c ≠ '\r') :
    (c :: l).foldl csvStep ⟨.startRecord, [], [], recs⟩
      = (c :: l).foldl csvStep ⟨.startField, [], [], recs⟩ := by
  rw [List.foldl_cons, List.foldl_cons, csvStep_startRecord_bridge recs c h1 h2]


lemma foldl_record_start (l : List String) (hne : l ≠ []) (hns : l ≠ [""])
    (hl : ∀ s ∈ l, cleanCell s) (recs : List (List String)) :
    ((joinFields l).toList ++ ['\r', '\n']).foldl csvStep ⟨.startRecord, [], [], recs⟩
      = ⟨.startRecord, [], [], recs ++ [l]⟩ := by
  have hfields := foldl_record_fields l hne hl [] recs
  have hhead : ∃ c tail, (joinFields l).toList ++ ['\r', '\n'] = c :: tail
      ∧ c ≠ '\n' ∧ c ≠ '\r' := by
    cases l with
    | nil => exact absurd rfl hne
    | cons s rest =>
        cases rest with
        | nil =>
            cases hs' : s.toList with
            | nil =>
                exfalso
                apply hns
                have hs0 : s = "" := by rw [← mk_toList s, hs']
                rw [hs0]
            | cons c cs =>
                have hc := hl s (by simp) c (by rw [hs']; simp)
                refine ⟨c, cs ++ ['\r', '\n'], ?_, hc.2.2.2, hc.2.2.1⟩
                rw [joinFields_single, hs', List.cons_append]
        | cons t l' =>
            cases hs' : s.toList with
            | nil =>
                refine ⟨',', (joinFields (t :: l')).toList ++ ['\r', '\n'], ?_,
                  by decide, by decide⟩
                rw [joinFields_pair, toList_append, toList_append, hs',
                  show (",".toList) = [','] from rfl]
                simp
            | cons c cs =>
                have hc := hl s (by simp) c (by rw [hs']; simp)
                refine ⟨c, (cs ++ (',' :: (joinFields (t :: l')).toList)) ++ ['\r', '\n'],
                  ?_, hc.2.2.2, hc.2.2.1⟩
                rw [joinFields_pair, toList_append, toList_append, hs',
                  show (",".toList) = [','] from rfl]
                simp
  obtain ⟨c, tail, heq, hc1, hc2⟩ := hhead
  rw [heq, foldl_startRecord_eq_startField c tail recs hc1 hc2, ← heq, hfields]
  simp

lemma foldl_writeRecord (row : Row) (hclean : ∀ s ∈ row, cleanCell s)
    (recs : List (List String)) :
    (writeRecord row).toList.foldl csvStep ⟨.startRecord, [], [], recs⟩
      = ⟨.startRecord, [], [], recs ++ [row]⟩ := by
  by_cases hrow : row = [""]
  · subst hrow
    rfl
  · rw [writeRecord_clean row hclean hrow]
    cases row with
    | nil => rfl
    | cons s rest =>
        rw [toList_append, show ("\r\n".toList) = ['\r', '\n'] from rfl]
        exact foldl_record_start (s :: rest) (by simp) hrow hclean recs

lemma foldl_write_csv (rows : Table) : ∀ (_ : ∀ row ∈ rows, ∀ s ∈ row, cleanCell s)
    (recs : List (List String)),
    (write_csv rows).toList.foldl csvStep ⟨.startRecord, [], [], recs⟩
      = ⟨.startRecord, [], [], recs ++ rows⟩ := by
  induction rows with
  | nil => intro _ recs; simp [write_csv]
  | cons row rest ih =>
      intro hclean recs
      rw [write_csv, toList_append, List.foldl_append,
        foldl_writeRecord row (hclean row (by simp)) recs,
        ih (fun r hr => hclean r (by simp [hr])) (recs ++ [row])]
      simp

/-- C3: serializing a table with the CSV writer and re-parsing the written text
with the fetcher's CSV parser yields the table unchanged, cell by cell, whenever no
cell contains an embedded delimiter, quote character or line break. -/
theorem csv_round_trip (rows : Table)
    (hclean : ∀ row ∈ rows, ∀ s ∈ row, cleanCell s) :
    parse_csv (write_csv rows) = rows := by
  rw [parse_csv, foldl_write_csv rows hclean []]
  simp [csvFinish]

/-- Witness for C3 at the spec's scenario table. -/
theorem csv_round_trip_witness :
    (∀ row ∈ [["Date", "Headline"], ["2024-01-01", "Stocks rise"]], ∀ s ∈ row, cleanCell s)
      ∧ parse_csv (write_csv [["Date", "Headline"], ["2024-01-01", "Stocks rise"]])
          = [["Date", "Headline"], ["2024-01-01", "Stocks rise"]] :=
  ⟨by decide, csv_round_trip _ (by decide)⟩
